import Mathlib

/-!
Verification of the infinitrain job-scheduler core: a shallow embedding of
the Go sources (pkg/job, internal/scheduler/memory_store.go,
internal/worker) together with proofs about the embedded definitions.

Conventions of the embedding:
* Go `string`-typed enums (`JobType`, `JobStatus`) stay `String`, as in the
  source, so that the `default` branches of the Go switches are modelled.
* `time.Time` instants are `Nat`; `time.Duration` is `Int` (nanoseconds).
  `time.Now()` becomes an explicit `now : Nat` parameter.
* Go maps become association lists (`List (key × value)`); map read is
  `List.lookup`, write replaces the binding in place or appends.
* A Go method with a pointer receiver that both mutates and returns an
  error is modelled as a function returning the error option together with
  the updated value.
* Go byte strings are `List Nat` (`goBytes`); Go's byte-wise string
  comparison is `bytesLt`.
-/

/-- Errors of pkg/job/utils.go: ValidationError, JobNotFoundError and the
plain `fmt.Errorf` errors the worker and executor build. -/
inductive GoError where
  | validation (msg : String)
  | jobNotFound (jobID : String)
  | generic (msg : String)
deriving DecidableEq, Repr

/-- `IsValidationError` of pkg/job/utils.go (a type assertion in Go). -/
def isValidationError : GoError → Bool
  | GoError.validation _ => true
  | _ => false

/-- `IsJobNotFoundError` of pkg/job/utils.go. -/
def isJobNotFoundError : GoError → Bool
  | GoError.jobNotFound _ => true
  | _ => false

/-- The message carried by an error (its `Error()` string, abbreviated). -/
def GoError.msg : GoError → String
  | GoError.validation m => m
  | GoError.jobNotFound id => "job not found: " ++ id
  | GoError.generic m => m

/-- `Job` of pkg/job/types.go. Field-for-field translation; `Tags` is kept
by value here (the aliasing of its backing array under Go's shallow struct
copy is modelled separately by `JobV`/`TagHeap` below). -/
structure Job where
  id : String
  type : String
  command : String
  script : String
  url : String
  method : String
  filePath : String
  timeout : Int
  retries : Int
  priority : Int
  tags : List String
  environment : List (String × String)
  workerId : String
  status : String
  createdAt : Nat
  startedAt : Option Nat
  completedAt : Option Nat
  output : String
  error : String
  exitCode : Int
deriving DecidableEq, Repr

/-- `Job.CanTransitionTo` of pkg/job/utils.go: the switch over the current
status; the last arm of the Go switch (terminal states) and its `default`
both return false and are the final `else` here. -/
def Job.CanTransitionTo (j : Job) (newStatus : String) : Bool :=
  if j.status = "pending" then
    newStatus = "queued" || newStatus = "cancelled"
  else if j.status = "queued" then
    newStatus = "running" || newStatus = "cancelled"
  else if j.status = "running" then
    newStatus = "completed" || newStatus = "failed" ||
      newStatus = "cancelled" || newStatus = "retrying"
  else if j.status = "retrying" then
    newStatus = "queued" || newStatus = "failed" || newStatus = "cancelled"
  else
    false

/-- `Job.UpdateStatus` of pkg/job/utils.go. The Go method mutates the
receiver and returns an error; here it returns `(error option, job after
the call)` — on rejection the job is returned unchanged. -/
def Job.UpdateStatus (j : Job) (newStatus : String) (now : Nat) :
    Option GoError × Job :=
  if j.CanTransitionTo newStatus = false then
    (some (GoError.validation
      ("cannot transition from " ++ j.status ++ " to " ++ newStatus)), j)
  else
    let j1 := { j with status := newStatus }
    let j2 :=
      if newStatus = "running" then
        if j1.startedAt = none then { j1 with startedAt := some now } else j1
      else if newStatus = "completed" ∨ newStatus = "failed" ∨ newStatus = "cancelled" then
        if j1.completedAt = none then { j1 with completedAt := some now } else j1
      else j1
    (none, j2)

/-- The transition table of spec §4.1, written out as the set of its edges
(spec side, for comparison with `Job.CanTransitionTo`). -/
def transitionTable : List (String × String) :=
  [("pending", "queued"), ("pending", "cancelled"),
   ("queued", "running"), ("queued", "cancelled"),
   ("running", "completed"), ("running", "failed"),
   ("running", "cancelled"), ("running", "retrying"),
   ("retrying", "queued"), ("retrying", "failed"), ("retrying", "cancelled")]

theorem canTransitionTo_iff_mem (j : Job) (s : String) :
    j.CanTransitionTo s = true ↔ (j.status, s) ∈ transitionTable := by
  unfold Job.CanTransitionTo transitionTable
  split
  · rename_i h; simp_all [Prod.ext_iff]
  · split
    · rename_i h1 h2; simp_all [Prod.ext_iff]
    · split
      · rename_i h1 h2 h3; simp_all [Prod.ext_iff]; tauto
      · split
        · rename_i h1 h2 h3 h4; simp_all [Prod.ext_iff]; tauto
        · rename_i h1 h2 h3 h4; simp_all [Prod.ext_iff]

theorem updateStatus_rejected (j : Job) (s : String) (now : Nat)
    (h : j.CanTransitionTo s = false) :
    j.UpdateStatus s now =
      (some (GoError.validation
        ("cannot transition from " ++ j.status ++ " to " ++ s)), j) := by
  unfold Job.UpdateStatus
  simp [h]

theorem updateStatus_accepted (j : Job) (s : String) (now : Nat)
    (h : j.CanTransitionTo s = true) :
    (j.UpdateStatus s now).1 = none
    ∧ (j.UpdateStatus s now).2.status = s
    ∧ (j.UpdateStatus s now).2.startedAt =
        (if s = "running" ∧ j.startedAt = none then some now else j.startedAt)
    ∧ (j.UpdateStatus s now).2.completedAt =
        (if (s = "completed" ∨ s = "failed" ∨ s = "cancelled") ∧ j.completedAt = none
         then some now else j.completedAt) := by
  unfold Job.UpdateStatus
  simp only [h]
  by_cases hr : s = "running" <;>
    by_cases hn : j.startedAt = none <;>
      by_cases ht : s = "completed" ∨ s = "failed" ∨ s = "cancelled" <;>
        by_cases hc : j.completedAt = none <;>
          simp_all

/-- C1: `Job.UpdateStatus(new)` returns a validation error exactly when the
edge `(current status, new)` is not in the §4.1 transition table (so in
particular every transition out of a terminal status fails); a rejection
leaves the job — hence its Status, StartedAt and CompletedAt — unchanged;
an accepted transition assigns StartedAt only on a first entry into
`running` and CompletedAt only on a first entry into a terminal status,
and otherwise preserves both timestamps. -/
theorem c1_updateStatus_lifecycle (j : Job) (s : String) (now : Nat) :
    (((j.UpdateStatus s now).1 ≠ none) ↔ (j.status, s) ∉ transitionTable)
    ∧ (∀ e, (j.UpdateStatus s now).1 = some e →
        isValidationError e = true ∧ (j.UpdateStatus s now).2 = j)
    ∧ ((j.UpdateStatus s now).1 = none →
        (j.UpdateStatus s now).2.status = s
        ∧ (j.UpdateStatus s now).2.startedAt =
            (if s = "running" ∧ j.startedAt = none then some now else j.startedAt)
        ∧ (j.UpdateStatus s now).2.completedAt =
            (if (s = "completed" ∨ s = "failed" ∨ s = "cancelled") ∧ j.completedAt = none
             then some now else j.completedAt)) := by
  by_cases h : j.CanTransitionTo s = true
  · have hm := (canTransitionTo_iff_mem j s).mp h
    have ha := updateStatus_accepted j s now h
    refine ⟨?_, ?_, ?_⟩
    · simp [ha.1, hm]
    · intro e he; rw [ha.1] at he; exact absurd he (by simp)
    · intro _; exact ha.2
  · have hb : j.CanTransitionTo s = false := by
      cases hcb : j.CanTransitionTo s
      · rfl
      · exact absurd hcb h
    have hm : (j.status, s) ∉ transitionTable := fun hmem =>
      h ((canTransitionTo_iff_mem j s).mpr hmem)
    have hr := updateStatus_rejected j s now hb
    refine ⟨?_, ?_, ?_⟩
    · simp [hr, hm]
    · intro e he; rw [hr] at he ⊢
      simp only [Option.some.injEq] at he
      subst he
      exact ⟨rfl, rfl⟩
    · intro hcontra; rw [hr] at hcontra; exact absurd hcontra (by simp)

/-! ## The in-memory store (internal/scheduler/memory_store.go) -/

/-- A Go `interface{}` value as it occurs in filter evaluation: the field
accessors produce strings, ints, times or nil, and a filter's `Value` may
additionally be a `[]interface{}` (for the `in` operator). -/
inductive GoValue where
  | vnil
  | vint (n : Int)
  | vstring (s : String)
  | vtime (t : Nat)
  | vlist (xs : List GoValue)

/- Go `==` on the interface values above: equal dynamic type and equal
value (the slice arm is structural; `matchesFilter` never compares two
slices, so the Go panic on uncomparable operands is unreachable). -/
mutual

/-- One Go interface value equals another. -/
def goValueEq : GoValue → GoValue → Bool
  | GoValue.vnil, GoValue.vnil => true
  | GoValue.vint a, GoValue.vint b => a == b
  | GoValue.vstring a, GoValue.vstring b => a == b
  | GoValue.vtime a, GoValue.vtime b => a == b
  | GoValue.vlist as, GoValue.vlist bs => goValueListEq as bs
  | _, _ => false

def goValueListEq : List GoValue → List GoValue → Bool
  | [], [] => true
  | a :: as, b :: bs => goValueEq a b && goValueListEq as bs
  | _, _ => false
end

instance : BEq GoValue := ⟨goValueEq⟩

/-- `Filter` of pkg/job/interfaces.go (`Filter` itself is taken by Mathlib,
hence the name). -/
structure JobFilter where
  field : String
  operator : String
  value : GoValue

/-- A Go string as the list of its bytes. The embedding uses the character
code points of the literal, which for the ASCII strings of this code base
are exactly the UTF-8 bytes Go indexes. -/
def goBytes (s : String) : List Nat := s.data.map Char.toNat

/-- `toLowerCase` of memory_store.go: ASCII-only lower casing of one byte. -/
def toLowerCase (b : Nat) : Nat :=
  if 65 ≤ b ∧ b ≤ 90 then b + 32 else b

/-- Go's `<` on strings: byte-wise lexicographic comparison, written out on
byte lists (the built-in comparison does not reduce in the kernel). -/
def bytesLt : List Nat → List Nat → Bool
  | [], [] => false
  | [], _ :: _ => true
  | _ :: _, [] => false
  | a :: as, b :: bs => if a < b then true else if b < a then false else bytesLt as bs

/-- Byte-wise lexicographic `≤` (spec side, used to state the order
relation that `gte`/`lte` are meant to compute). -/
def bytesLe : List Nat → List Nat → Bool
  | [], _ => true
  | _ :: _, [] => false
  | a :: as, b :: bs => if a < b then true else if b < a then false else bytesLe as bs

/-- The inner loop of `findSubstring` of memory_store.go: does `substr`
match case-insensitively at the head of `strRest`? -/
def matchHere : List Nat → List Nat → Bool
  | _, [] => true
  | [], _ :: _ => false
  | a :: as, b :: bs => decide (toLowerCase a = toLowerCase b) && matchHere as bs

/-- `findSubstring` of memory_store.go. The Go loop tries every start index
`i` with `i ≤ len(str) - len(substr)`; the recursion tries every suffix of
`str`, and `matchHere` fails by itself when the suffix is too short. -/
def findSubstring (str substr : List Nat) : Bool :=
  match str with
  | [] => matchHere [] substr
  | _ :: rest => matchHere str substr || findSubstring rest substr

/-- `contains` of memory_store.go (the case-insensitive substring check). -/
def contains (str substr : String) : Bool :=
  decide ((goBytes substr).length ≤ (goBytes str).length) &&
    (decide (str = substr) ||
      (decide (0 < (goBytes substr).length) &&
        findSubstring (goBytes str) (goBytes substr)))

/-- `compareValues` of memory_store.go: three-way comparison, defined only
for two ints, two strings or two times; every other pairing reports 0. -/
def compareValues (a b : GoValue) : Int :=
  match a, b with
  | GoValue.vint va, GoValue.vint vb =>
      if va < vb then -1 else if vb < va then 1 else 0
  | GoValue.vstring va, GoValue.vstring vb =>
      if bytesLt (goBytes va) (goBytes vb) then -1
      else if bytesLt (goBytes vb) (goBytes va) then 1 else 0
  | GoValue.vtime va, GoValue.vtime vb =>
      if va < vb then -1 else if vb < va then 1 else 0
  | _, _ => 0

/-- The field-accessor switch at the head of `matchesFilter` of
memory_store.go; `none` is the `default` arm (unknown field). -/
def fieldValue (j : Job) (field : String) : Option GoValue :=
  if field = "id" then some (GoValue.vstring j.id)
  else if field = "type" then some (GoValue.vstring j.type)
  else if field = "status" then some (GoValue.vstring j.status)
  else if field = "worker_id" then some (GoValue.vstring j.workerId)
  else if field = "priority" then some (GoValue.vint j.priority)
  else if field = "created_at" then some (GoValue.vtime j.createdAt)
  else if field = "started_at" then
    some (match j.startedAt with
          | some t => GoValue.vtime t
          | none => GoValue.vnil)
  else if field = "completed_at" then
    some (match j.completedAt with
          | some t => GoValue.vtime t
          | none => GoValue.vnil)
  else none

/-- `matchesFilter` of memory_store.go: resolve the field, then apply the
operator switch; both `default` arms return false. -/
def matchesFilter (j : Job) (f : JobFilter) : Bool :=
  match fieldValue j f.field with
  | none => false
  | some fv =>
    if f.operator = "eq" then fv == f.value
    else if f.operator = "ne" then fv != f.value
    else if f.operator = "gt" then decide (0 < compareValues fv f.value)
    else if f.operator = "lt" then decide (compareValues fv f.value < 0)
    else if f.operator = "gte" then decide (0 ≤ compareValues fv f.value)
    else if f.operator = "lte" then decide (compareValues fv f.value ≤ 0)
    else if f.operator = "in" then
      match f.value with
      | GoValue.vlist xs => xs.any (fun v => fv == v)
      | _ => false
    else if f.operator = "contains" then
      match fv, f.value with
      | GoValue.vstring str, GoValue.vstring substr => contains str substr
      | _, _ => false
    else false

/-- `matchesFilters` of memory_store.go: conjunction of all filters. -/
def matchesFilters (j : Job) (filters : List JobFilter) : Bool :=
  filters.all (fun f => matchesFilter j f)

/-- `MemoryStore`: the job map, as an association list (the mutex has no
sequential content). -/
structure MemoryStore where
  jobs : List (String × Job)
deriving DecidableEq, Repr

/-- `MemoryStore.Create`: fails if the ID exists, otherwise stores a copy. -/
def MemoryStore.Create (s : MemoryStore) (j : Job) : Except GoError MemoryStore :=
  if (s.jobs.lookup j.id).isSome then
    Except.error (GoError.validation ("job already exists: " ++ j.id))
  else
    Except.ok ⟨s.jobs ++ [(j.id, j)]⟩

/-- `MemoryStore.Get`: a not-found error when the ID is absent, otherwise a
copy of the stored job. -/
def MemoryStore.Get (s : MemoryStore) (jobID : String) : Except GoError Job :=
  match s.jobs.lookup jobID with
  | none => Except.error (GoError.jobNotFound jobID)
  | some j => Except.ok j

/-- Replacement of the binding of one key (Go map assignment to a present
key). -/
def mapReplace (m : List (String × Job)) (k : String) (v : Job) :
    List (String × Job) :=
  m.map (fun p => if p.1 = k then (k, v) else p)

/-- `MemoryStore.Update`: not-found when the ID is absent, else replace. -/
def MemoryStore.Update (s : MemoryStore) (j : Job) : Except GoError MemoryStore :=
  if (s.jobs.lookup j.id).isSome then
    Except.ok ⟨mapReplace s.jobs j.id j⟩
  else
    Except.error (GoError.jobNotFound j.id)

/-- `MemoryStore.Delete`: not-found when the ID is absent, else remove. -/
def MemoryStore.Delete (s : MemoryStore) (jobID : String) :
    Except GoError MemoryStore :=
  if (s.jobs.lookup jobID).isSome then
    Except.ok ⟨s.jobs.filter (fun p => p.1 ≠ jobID)⟩
  else
    Except.error (GoError.jobNotFound jobID)

/-- `MemoryStore.List`: every stored job passing all filters (as a copy). -/
def MemoryStore.List (s : MemoryStore) (filters : List JobFilter) : List Job :=
  (s.jobs.map Prod.snd).filter (fun j => matchesFilters j filters)

/-- `MemoryStore.UpdateStatus`: not-found when absent; otherwise delegates
to `Job.UpdateStatus` on the stored job (in place), propagating its error. -/
def MemoryStore.UpdateStatus (s : MemoryStore) (jobID : String)
    (status : String) (now : Nat) : Except GoError MemoryStore :=
  match s.jobs.lookup jobID with
  | none => Except.error (GoError.jobNotFound jobID)
  | some j =>
    match j.UpdateStatus status now with
    | (some e, _) => Except.error e
    | (none, j2) => Except.ok ⟨mapReplace s.jobs jobID j2⟩

/-! ## Correctness of the hand-written substring search -/

theorem matchHere_iff (p s : List Nat) :
    matchHere s p = true ↔
      ∃ r, s.map toLowerCase = p.map toLowerCase ++ r := by
  induction p generalizing s with
  | nil =>
    simp [matchHere]
  | cons b bs ih =>
    cases s with
    | nil => simp [matchHere]
    | cons a as =>
      simp only [matchHere, Bool.and_eq_true, decide_eq_true_eq, List.map_cons,
        List.cons_append, List.cons.injEq, ih]
      constructor
      · rintro ⟨h1, r, h2⟩
        exact ⟨r, h1, h2⟩
      · rintro ⟨r, h1, h2⟩
        exact ⟨h1, r, h2⟩

theorem findSubstring_iff (s p : List Nat) :
    findSubstring s p = true ↔
      ∃ l r, s.map toLowerCase = l ++ p.map toLowerCase ++ r := by
  induction s with
  | nil =>
    simp only [findSubstring, matchHere_iff, List.map_nil]
    constructor
    · rintro ⟨r, h⟩
      exact ⟨[], r, by simpa using h⟩
    · rintro ⟨l, r, h⟩
      have h2 : l ++ (p.map toLowerCase ++ r) = [] := by
        rw [← List.append_assoc]; exact h.symm
      rcases List.append_eq_nil.mp h2 with ⟨hl, hpr⟩
      rcases List.append_eq_nil.mp hpr with ⟨hp, hr⟩
      exact ⟨[], by simp [hp]⟩
  | cons a as ih =>
    simp only [findSubstring, Bool.or_eq_true, matchHere_iff, ih, List.map_cons]
    constructor
    · rintro (⟨r, h⟩ | ⟨l, r, h⟩)
      · exact ⟨[], r, by simpa using h⟩
      · exact ⟨toLowerCase a :: l, r, by simp [h]⟩
    · rintro ⟨l, r, h⟩
      cases l with
      | nil => exact Or.inl ⟨r, by simpa using h⟩
      | cons x l2 =>
        simp only [List.cons_append, List.cons.injEq] at h
        exact Or.inr ⟨l2, r, h.2⟩

/-- Spec side: `substr` occurs as a case-insensitive substring of `str`
(after ASCII lower-casing of Go's bytes). -/
def SubstringCI (substr str : String) : Prop :=
  ∃ l r, (goBytes str).map toLowerCase = l ++ (goBytes substr).map toLowerCase ++ r

theorem substringCI_length {substr str : String} (h : SubstringCI substr str) :
    (goBytes substr).length ≤ (goBytes str).length := by
  obtain ⟨l, r, h⟩ := h
  have hlen := congrArg List.length h
  simp only [List.length_map, List.length_append] at hlen
  omega

theorem goBytes_eq_nil_iff (s : String) : goBytes s = [] ↔ s = "" := by
  constructor
  · intro h
    have hd : s.data = [] := by
      have := congrArg List.length h
      simp only [goBytes, List.length_map] at this
      exact List.eq_nil_of_length_eq_zero this
    cases s with
    | mk data => simp_all
  · intro h
    subst h
    rfl

theorem contains_iff (str substr : String) :
    contains str substr = true ↔
      (SubstringCI substr str ∧ (substr = "" → str = "")) := by
  by_cases hsub : substr = ""
  · subst hsub
    have hs : SubstringCI "" str :=
      ⟨(goBytes str).map toLowerCase, [], by simp [goBytes]⟩
    simp [contains, goBytes, hs]
  · have hvac : (substr = "" → str = "") := fun h => absurd h hsub
    constructor
    · intro h
      simp only [contains, Bool.and_eq_true, Bool.or_eq_true,
        decide_eq_true_eq] at h
      rcases h with ⟨hlen, heq | ⟨hpos, hfind⟩⟩
      · subst heq
        exact ⟨⟨[], [], by simp⟩, hvac⟩
      · exact ⟨(findSubstring_iff _ _).mp hfind, hvac⟩
    · rintro ⟨h, _⟩
      have hpos : 0 < (goBytes substr).length := by
        rcases Nat.eq_zero_or_pos (goBytes substr).length with h0 | h0
        · exact absurd ((goBytes_eq_nil_iff substr).mp
            (List.eq_nil_of_length_eq_zero h0)) hsub
        · exact h0
      simp only [contains, Bool.and_eq_true, Bool.or_eq_true, decide_eq_true_eq]
      exact ⟨substringCI_length h, Or.inr ⟨hpos, (findSubstring_iff _ _).mpr h⟩⟩

/-- A concrete job, the base of the concrete test inputs below. -/
def baseJob : Job :=
  { id := "job-1", type := "command", command := "echo hi", script := "",
    url := "", method := "", filePath := "", timeout := 0, retries := 0,
    priority := 1, tags := [], environment := [], workerId := "",
    status := "pending", createdAt := 0, startedAt := none,
    completedAt := none, output := "", error := "", exitCode := 0 }

/-- C9 (amended): a `contains` filter on a string-valued field matches
exactly when the filter's string value occurs as a case-insensitive
substring of the field value AND (the filter value is non-empty or the
field value is empty) — the hand-written `contains` makes an empty search
string match only an empty field value; the filter evaluates to false
whenever either operand is not a string. The job-17 examples of the claim
hold as stated. -/
theorem c9_contains_filter_semantics (j : Job) (f : JobFilter)
    (hop : f.operator = "contains") :
    (∀ str substr, fieldValue j f.field = some (GoValue.vstring str) →
        f.value = GoValue.vstring substr →
        (matchesFilter j f = true ↔
          (SubstringCI substr str ∧ (substr = "" → str = ""))))
    ∧ (∀ fv, fieldValue j f.field = some fv →
        (∀ t, fv ≠ GoValue.vstring t) → matchesFilter j f = false)
    ∧ (∀ fv, fieldValue j f.field = some fv →
        (∀ t, f.value ≠ GoValue.vstring t) → matchesFilter j f = false) := by
  refine ⟨?_, ?_, ?_⟩
  · intro str substr h1 h2
    simp only [matchesFilter, h1, h2, hop]
    simp [contains_iff]
  · intro fv h1 h2
    simp only [matchesFilter, h1, hop]
    simp only [show ("contains" = "eq") = False by simp,
      show ("contains" = "ne") = False by simp,
      show ("contains" = "gt") = False by simp,
      show ("contains" = "lt") = False by simp,
      show ("contains" = "gte") = False by simp,
      show ("contains" = "lte") = False by simp,
      show ("contains" = "in") = False by simp, if_false, if_pos rfl]
    cases fv with
    | vstring t => exact absurd rfl (h2 t)
    | vnil => rfl
    | vint n => rfl
    | vtime t => rfl
    | vlist xs => rfl
  · intro fv h1 h2
    simp only [matchesFilter, h1, hop]
    simp only [show ("contains" = "eq") = False by simp,
      show ("contains" = "ne") = False by simp,
      show ("contains" = "gt") = False by simp,
      show ("contains" = "lt") = False by simp,
      show ("contains" = "gte") = False by simp,
      show ("contains" = "lte") = False by simp,
      show ("contains" = "in") = False by simp, if_false, if_pos rfl]
    cases hv : f.value with
    | vstring t => exact absurd hv (h2 t)
    | vnil => cases fv <;> rfl
    | vint n => cases fv <;> rfl
    | vtime t => cases fv <;> rfl
    | vlist xs => cases fv <;> rfl

/-- C9 witness: the claim's own examples, decided through the amended
equivalence: id `job-1700000000-ab12cd34` matches the `contains job-17`
filter and id `job-5-ab12cd34` does not. -/
theorem c9_contains_filter_witness :
    matchesFilter { baseJob with id := "job-1700000000-ab12cd34" }
      { field := "id", operator := "contains", value := GoValue.vstring "job-17" } = true
    ∧ matchesFilter { baseJob with id := "job-5-ab12cd34" }
      { field := "id", operator := "contains", value := GoValue.vstring "job-17" } = false := by
  constructor
  · exact ((c9_contains_filter_semantics
      { baseJob with id := "job-1700000000-ab12cd34" }
      { field := "id", operator := "contains", value := GoValue.vstring "job-17" }
      rfl).1 "job-1700000000-ab12cd34" "job-17" rfl rfl).mpr
      ⟨⟨[], (goBytes "00000000-ab12cd34").map toLowerCase, by decide⟩,
        fun h => absurd h (by decide)⟩
  · decide

/-- C9 counterexample: with an empty filter value the claim as stated says
every field value matches (the empty string occurs, case-insensitively, as
a substring of every string), but the code evaluates the filter to false on
a non-empty field value. -/
theorem c9_empty_value_cx :
    matchesFilter { baseJob with id := "a" }
      { field := "id", operator := "contains", value := GoValue.vstring "" } = false
    ∧ SubstringCI "" "a" :=
  ⟨by decide, ⟨(goBytes "a").map toLowerCase, [], by decide⟩⟩

/-! ## Ordering operators (C3) -/

theorem bytesLe_eq_not_lt (a b : List Nat) : bytesLe a b = !bytesLt b a := by
  induction a generalizing b with
  | nil => cases b <;> simp [bytesLe, bytesLt]
  | cons x as ih =>
    cases b with
    | nil => simp [bytesLe, bytesLt]
    | cons y bs =>
      simp only [bytesLe, bytesLt]
      by_cases h1 : x < y
      · have h2 : ¬ y < x := by omega
        simp [h1, h2]
      · by_cases h2 : y < x
        · simp [h1, h2]
        · simp [h1, h2, ih]

theorem bytesLt_asymm (a b : List Nat) (h : bytesLt a b = true) :
    bytesLt b a = false := by
  induction a generalizing b with
  | nil =>
    cases b with
    | nil => simp_all [bytesLt]
    | cons y bs => simp [bytesLt]
  | cons x as ih =>
    cases b with
    | nil => simp_all [bytesLt]
    | cons y bs =>
      simp only [bytesLt] at h ⊢
      by_cases h1 : x < y
      · have h2 : ¬ y < x := by omega
        simp [h1, h2]
      · by_cases h2 : y < x
        · simp_all
        · have h3 : ¬ x < y := h1
          simp_all [ih]

/-- Spec side: the two operands have the same comparable dynamic type
(int, string or timestamp). -/
def comparablyTyped : GoValue → GoValue → Bool
  | GoValue.vint _, GoValue.vint _ => true
  | GoValue.vstring _, GoValue.vstring _ => true
  | GoValue.vtime _, GoValue.vtime _ => true
  | _, _ => false

/-- Spec side: the order relation each ordering operator is meant to
compute on comparably-typed operands (byte-wise on strings, as in Go). -/
def orderHolds (op : String) (a b : GoValue) : Bool :=
  match a, b with
  | GoValue.vint x, GoValue.vint y =>
      if op = "gt" then decide (y < x)
      else if op = "lt" then decide (x < y)
      else if op = "gte" then decide (y ≤ x)
      else if op = "lte" then decide (x ≤ y)
      else false
  | GoValue.vstring x, GoValue.vstring y =>
      if op = "gt" then bytesLt (goBytes y) (goBytes x)
      else if op = "lt" then bytesLt (goBytes x) (goBytes y)
      else if op = "gte" then bytesLe (goBytes y) (goBytes x)
      else if op = "lte" then bytesLe (goBytes x) (goBytes y)
      else false
  | GoValue.vtime x, GoValue.vtime y =>
      if op = "gt" then decide (y < x)
      else if op = "lt" then decide (x < y)
      else if op = "gte" then decide (y ≤ x)
      else if op = "lte" then decide (x ≤ y)
      else false
  | _, _ => false

theorem compareValues_not_comparable (a b : GoValue)
    (h : comparablyTyped a b = false) : compareValues a b = 0 := by
  cases a <;> cases b <;> simp_all [comparablyTyped, compareValues]

theorem goCmpInt (x y : Int) :
    decide (0 < (if x < y then (-1 : Int) else if y < x then 1 else 0)) = decide (y < x)
    ∧ decide ((if x < y then (-1 : Int) else if y < x then 1 else 0) < 0) = decide (x < y)
    ∧ decide (0 ≤ (if x < y then (-1 : Int) else if y < x then 1 else 0)) = decide (y ≤ x)
    ∧ decide ((if x < y then (-1 : Int) else if y < x then 1 else 0) ≤ 0) = decide (x ≤ y) := by
  refine ⟨?_, ?_, ?_, ?_⟩ <;>
    · rw [decide_eq_decide]
      split_ifs <;> omega

theorem goCmpNat (x y : Nat) :
    decide (0 < (if x < y then (-1 : Int) else if y < x then 1 else 0)) = decide (y < x)
    ∧ decide ((if x < y then (-1 : Int) else if y < x then 1 else 0) < 0) = decide (x < y)
    ∧ decide (0 ≤ (if x < y then (-1 : Int) else if y < x then 1 else 0)) = decide (y ≤ x)
    ∧ decide ((if x < y then (-1 : Int) else if y < x then 1 else 0) ≤ 0) = decide (x ≤ y) := by
  refine ⟨?_, ?_, ?_, ?_⟩ <;>
    · rw [decide_eq_decide]
      split_ifs <;> omega

theorem goCmpBytes (A B : List Nat) :
    decide (0 < (if bytesLt A B = true then (-1 : Int) else if bytesLt B A = true then 1 else 0)) = bytesLt B A
    ∧ decide ((if bytesLt A B = true then (-1 : Int) else if bytesLt B A = true then 1 else 0) < 0) = bytesLt A B
    ∧ decide (0 ≤ (if bytesLt A B = true then (-1 : Int) else if bytesLt B A = true then 1 else 0)) = bytesLe B A
    ∧ decide ((if bytesLt A B = true then (-1 : Int) else if bytesLt B A = true then 1 else 0) ≤ 0) = bytesLe A B := by
  simp only [bytesLe_eq_not_lt]
  by_cases h1 : bytesLt A B = true
  · have h2 := bytesLt_asymm _ _ h1
    simp [h1, h2]
  · by_cases h2 : bytesLt B A = true
    · simp [h1, h2]
    · simp [h1, h2]

theorem compareValues_spec (a b : GoValue) (h : comparablyTyped a b = true) :
    decide (0 < compareValues a b) = orderHolds "gt" a b
    ∧ decide (compareValues a b < 0) = orderHolds "lt" a b
    ∧ decide (0 ≤ compareValues a b) = orderHolds "gte" a b
    ∧ decide (compareValues a b ≤ 0) = orderHolds "lte" a b := by
  cases a <;> cases b <;> simp only [comparablyTyped] at h <;>
    first
      | exact Bool.noConfusion h
      | exact goCmpInt _ _
      | exact goCmpNat _ _
      | exact goCmpBytes _ _

theorem fieldValue_unknown (j : Job) (field : String)
    (h : field ∉ ["id", "type", "status", "worker_id", "priority",
                  "created_at", "started_at", "completed_at"]) :
    fieldValue j field = none := by
  simp only [List.mem_cons, List.not_mem_nil, or_false, not_or] at h
  obtain ⟨h1, h2, h3, h4, h5, h6, h7, h8⟩ := h
  simp [fieldValue, h1, h2, h3, h4, h5, h6, h7, h8]

/-- C3 (amended): a filter whose field is not one of the eight known
accessors never matches; the four ordering operators compute the order
relation of the operands when the two operands have the same comparable
type (int, string, timestamp); on operands that are NOT comparably typed,
`gt` and `lt` evaluate to false but `gte` and `lte` evaluate to TRUE
(`compareValues` reports 0 for incomparable operands and 0 satisfies the
non-strict comparisons) — the claim's "otherwise evaluate to false" fails
for `gte`/`lte`. -/
theorem c3_ordering_filter_semantics (j : Job) (f : JobFilter) :
    (f.field ∉ ["id", "type", "status", "worker_id", "priority",
                "created_at", "started_at", "completed_at"] →
       matchesFilter j f = false)
    ∧ ((f.operator = "gt" ∨ f.operator = "lt" ∨ f.operator = "gte" ∨ f.operator = "lte") →
        ∀ fv, fieldValue j f.field = some fv →
          (comparablyTyped fv f.value = true →
             matchesFilter j f = orderHolds f.operator fv f.value)
          ∧ (comparablyTyped fv f.value = false →
             matchesFilter j f = (f.operator == "gte" || f.operator == "lte"))) := by
  constructor
  · intro h
    simp [matchesFilter, fieldValue_unknown j f.field h]
  · intro hop fv hfv
    constructor
    · intro hcomp
      have hs := compareValues_spec fv f.value hcomp
      rcases hop with h | h | h | h
      · simp only [matchesFilter, hfv, h,
          show ("gt" = "eq") = False from by simp,
          show ("gt" = "ne") = False from by simp,
          show ("gt" = "gt") = True from by simp, if_false, if_true]
        exact hs.1
      · simp only [matchesFilter, hfv, h,
          show ("lt" = "eq") = False from by simp,
          show ("lt" = "ne") = False from by simp,
          show ("lt" = "gt") = False from by simp,
          show ("lt" = "lt") = True from by simp, if_false, if_true]
        exact hs.2.1
      · simp only [matchesFilter, hfv, h,
          show ("gte" = "eq") = False from by simp,
          show ("gte" = "ne") = False from by simp,
          show ("gte" = "gt") = False from by simp,
          show ("gte" = "lt") = False from by simp,
          show ("gte" = "gte") = True from by simp, if_false, if_true]
        exact hs.2.2.1
      · simp only [matchesFilter, hfv, h,
          show ("lte" = "eq") = False from by simp,
          show ("lte" = "ne") = False from by simp,
          show ("lte" = "gt") = False from by simp,
          show ("lte" = "lt") = False from by simp,
          show ("lte" = "gte") = False from by simp,
          show ("lte" = "lte") = True from by simp, if_false, if_true]
        exact hs.2.2.2
    · intro hcomp
      have h0 := compareValues_not_comparable fv f.value hcomp
      rcases hop with h | h | h | h
      · simp only [matchesFilter, hfv, h, h0,
          show ("gt" = "eq") = False from by simp,
          show ("gt" = "ne") = False from by simp,
          show ("gt" = "gt") = True from by simp, if_false, if_true]
        decide
      · simp only [matchesFilter, hfv, h, h0,
          show ("lt" = "eq") = False from by simp,
          show ("lt" = "ne") = False from by simp,
          show ("lt" = "gt") = False from by simp,
          show ("lt" = "lt") = True from by simp, if_false, if_true]
        decide
      · simp only [matchesFilter, hfv, h, h0,
          show ("gte" = "eq") = False from by simp,
          show ("gte" = "ne") = False from by simp,
          show ("gte" = "gt") = False from by simp,
          show ("gte" = "lt") = False from by simp,
          show ("gte" = "gte") = True from by simp, if_false, if_true]
        decide
      · simp only [matchesFilter, hfv, h, h0,
          show ("lte" = "eq") = False from by simp,
          show ("lte" = "ne") = False from by simp,
          show ("lte" = "gt") = False from by simp,
          show ("lte" = "lt") = False from by simp,
          show ("lte" = "gte") = False from by simp,
          show ("lte" = "lte") = True from by simp, if_false, if_true]
        decide

/-- C3 counterexample: a `gte` filter comparing the int-valued `priority`
field against a string value — operands that are not comparably typed —
matches the job (evaluates to true), refuting the claim that every
ordering filter on non-comparably-typed operands evaluates to false. -/
theorem c3_gte_incomparable_cx :
    matchesFilter { baseJob with priority := 5 }
      { field := "priority", operator := "gte", value := GoValue.vstring "abc" } = true
    ∧ comparablyTyped (GoValue.vint 5) (GoValue.vstring "abc") = false
    ∧ fieldValue { baseJob with priority := 5 } "priority" = some (GoValue.vint 5) :=
  ⟨by decide, by decide, rfl⟩

/-- C3 witness: the amended theorem applied at a concrete comparable pair —
priority 5 against the int 3 under `gt` — and at the concrete incomparable
pair of the counterexample under `gt` (which is false there). -/
theorem c3_ordering_filter_witness :
    matchesFilter { baseJob with priority := 5 }
      { field := "priority", operator := "gt", value := GoValue.vint 3 } = true
    ∧ matchesFilter { baseJob with priority := 5 }
      { field := "priority", operator := "gt", value := GoValue.vstring "abc" } = false := by
  constructor
  · have h := ((c3_ordering_filter_semantics { baseJob with priority := 5 }
      { field := "priority", operator := "gt", value := GoValue.vint 3 }).2
      (Or.inl rfl) (GoValue.vint 5) rfl).1 rfl
    rw [h]
    decide
  · have h := ((c3_ordering_filter_semantics { baseJob with priority := 5 }
      { field := "priority", operator := "gt", value := GoValue.vstring "abc" }).2
      (Or.inl rfl) (GoValue.vint 5) rfl).2 rfl
    rw [h]
    decide

/-! ## The store contract (C6) -/

/-- C6: `Create` fails with a validation error exactly when the ID is
already present (and the Except result carries no changed store), and
otherwise appends the job; `Get`, `Update`, `Delete` and `UpdateStatus`
fail with a not-found error exactly when the ID is absent; `List` returns
exactly the stored jobs satisfying the conjunction of the supplied
filters, and all stored jobs when no filter is supplied. -/
theorem c6_store_contract (s : MemoryStore) (j : Job) (id st : String)
    (now : Nat) (filters : List JobFilter) :
    ((s.jobs.lookup j.id).isSome = true →
        MemoryStore.Create s j =
          Except.error (GoError.validation ("job already exists: " ++ j.id)))
    ∧ (s.jobs.lookup j.id = none →
        MemoryStore.Create s j = Except.ok ⟨s.jobs ++ [(j.id, j)]⟩)
    ∧ (MemoryStore.Get s id = Except.error (GoError.jobNotFound id) ↔
        s.jobs.lookup id = none)
    ∧ (∀ jj, s.jobs.lookup id = some jj → MemoryStore.Get s id = Except.ok jj)
    ∧ (MemoryStore.Update s j = Except.error (GoError.jobNotFound j.id) ↔
        s.jobs.lookup j.id = none)
    ∧ (MemoryStore.Delete s id = Except.error (GoError.jobNotFound id) ↔
        s.jobs.lookup id = none)
    ∧ ((∃ e, MemoryStore.UpdateStatus s id st now = Except.error e
          ∧ isJobNotFoundError e = true) ↔ s.jobs.lookup id = none)
    ∧ (∀ jj, jj ∈ MemoryStore.List s filters ↔
        (jj ∈ s.jobs.map Prod.snd ∧ matchesFilters jj filters = true))
    ∧ (MemoryStore.List s [] = s.jobs.map Prod.snd) := by
  refine ⟨?_, ?_, ?_, ?_, ?_, ?_, ?_, ?_, ?_⟩
  · intro h
    simp [MemoryStore.Create, h]
  · intro h
    simp [MemoryStore.Create, h]
  · cases hl : s.jobs.lookup id <;> simp [MemoryStore.Get, hl]
  · intro jj h
    simp [MemoryStore.Get, h]
  · cases hl : s.jobs.lookup j.id <;> simp [MemoryStore.Update, hl]
  · cases hl : s.jobs.lookup id <;> simp [MemoryStore.Delete, hl]
  · cases hl : s.jobs.lookup id with
    | none =>
      simp only [MemoryStore.UpdateStatus, hl]
      constructor
      · intro _; trivial
      · intro _; exact ⟨GoError.jobNotFound id, rfl, rfl⟩
    | some jj =>
      simp only [MemoryStore.UpdateStatus, hl]
      constructor
      · rintro ⟨e, he, hkind⟩
        by_cases hc : jj.CanTransitionTo st = true
        · cases hu : jj.UpdateStatus st now with
          | mk o j2 =>
            have ho : o = none := by
              have h1 := (updateStatus_accepted jj st now hc).1
              rw [hu] at h1
              exact h1
            rw [hu] at he
            subst ho
            exact absurd he (by simp)
        · have hb : jj.CanTransitionTo st = false := by
            cases hcb : jj.CanTransitionTo st
            · rfl
            · exact absurd hcb hc
          rw [updateStatus_rejected jj st now hb] at he
          simp only [Except.error.injEq] at he
          subst he
          exact absurd hkind (by simp [isJobNotFoundError])
      · intro hcontra
        exact absurd hcontra (by simp)
  · intro jj
    simp [MemoryStore.List, List.mem_filter]
  · simp [MemoryStore.List, matchesFilters, List.filter_eq_self]

/-! ## JobRequest validation and conversion (pkg/job/types.go) -/

/-- `JobRequest` of pkg/job/types.go (`Timeout` is the textual duration). -/
structure JobRequest where
  type : String
  command : String
  script : String
  url : String
  method : String
  filePath : String
  timeout : String
  retries : Int
  priority : Int
  tags : List String
  environment : List (String × String)
deriving DecidableEq, Repr

/-- `JobRequest.Validate`: the Go method mutates the receiver (the http
`Method` default is written back); modelled by returning the updated
request on success. -/
def JobRequest.Validate (jr : JobRequest) : Except GoError JobRequest :=
  if jr.type = "" then
    Except.error (GoError.validation "job type is required")
  else if jr.type = "command" then
    if jr.command = "" then
      Except.error (GoError.validation "command is required for command jobs")
    else Except.ok jr
  else if jr.type = "script" then
    if jr.script = "" then
      Except.error (GoError.validation "script is required for script jobs")
    else Except.ok jr
  else if jr.type = "http" then
    if jr.url = "" then
      Except.error (GoError.validation "url is required for HTTP jobs")
    else if jr.method = "" then Except.ok { jr with method := "GET" }
    else Except.ok jr
  else if jr.type = "file" then
    if jr.filePath = "" then
      Except.error (GoError.validation "file_path is required for file jobs")
    else Except.ok jr
  else
    Except.error (GoError.validation ("unsupported job type: " ++ jr.type))

/-- `GenerateJobID` of pkg/job/utils.go: the Unix timestamp and the random
hex suffix are explicit parameters (time and crypto/rand are ambient in
Go). -/
def GenerateJobID (ts : Int) (hexSuffix : String) : String :=
  "job-" ++ toString ts ++ "-" ++ hexSuffix

/-- 5 * time.Minute, in nanoseconds (the default job timeout). -/
def fiveMinutes : Int := 300000000000

/-- `JobRequest.ToJob` of pkg/job/types.go. `parseDuration` models Go's
`time.ParseDuration` (`none` is a parse error); the ID inputs and `now`
are explicit parameters. -/
def JobRequest.ToJob (jr : JobRequest) (ts : Int) (hexSuffix : String)
    (now : Nat) (parseDuration : String → Option Int) : Except GoError Job :=
  match jr.Validate with
  | Except.error e => Except.error e
  | Except.ok jr2 =>
    let job : Job :=
      { id := GenerateJobID ts hexSuffix, type := jr2.type,
        command := jr2.command, script := jr2.script, url := jr2.url,
        method := jr2.method, filePath := jr2.filePath, timeout := 0,
        retries := jr2.retries, priority := jr2.priority, tags := jr2.tags,
        environment := jr2.environment, workerId := "", status := "pending",
        createdAt := now, startedAt := none, completedAt := none,
        output := "", error := "", exitCode := 0 }
    if jr2.timeout ≠ "" then
      match parseDuration jr2.timeout with
      | none =>
        Except.error (GoError.validation ("invalid timeout format: " ++ jr2.timeout))
      | some d =>
        let job2 := { job with timeout := d }
        Except.ok (if job2.priority = 0 then { job2 with priority := 1 } else job2)
    else
      let job2 := { job with timeout := fiveMinutes }
      Except.ok (if job2.priority = 0 then { job2 with priority := 1 } else job2)

theorem generateJobID_ne_empty (ts : Int) (hexSuffix : String) :
    GenerateJobID ts hexSuffix ≠ "" := by
  intro h
  have hl := congrArg String.length h
  have h4 : "job-".length = 4 := rfl
  have h1 : "-".length = 1 := rfl
  have h0 : "".length = 0 := rfl
  simp only [GenerateJobID, String.length_append, h4, h1, h0] at hl
  omega

theorem validate_ok_fields (jr jr2 : JobRequest)
    (h : jr.Validate = Except.ok jr2) :
    jr2.type = jr.type ∧ jr2.command = jr.command ∧ jr2.script = jr.script
    ∧ jr2.url = jr.url ∧ jr2.filePath = jr.filePath ∧ jr2.timeout = jr.timeout
    ∧ jr2.retries = jr.retries ∧ jr2.priority = jr.priority
    ∧ jr2.tags = jr.tags ∧ jr2.environment = jr.environment
    ∧ (jr2.method = jr.method ∨ jr2.method = "GET") := by
  unfold JobRequest.Validate at h
  split_ifs at h
  all_goals
    first
      | (injection h with hh; subst hh; simp)
      | (injection h)

/-- C8: `Validate()` fails with a validation error exactly when `Type` is
empty or unknown, or when the required type-specific payload field is
empty (`Command`/`Script`/`URL`/`FilePath`); a valid http request with an
empty `Method` succeeds with `Method` set to `GET` (written back into the
request). -/
theorem c8_validate (jr : JobRequest) :
    ((∃ e, jr.Validate = Except.error e ∧ isValidationError e = true) ↔
      (jr.type ∉ ["command", "script", "http", "file"]
       ∨ (jr.type = "command" ∧ jr.command = "")
       ∨ (jr.type = "script" ∧ jr.script = "")
       ∨ (jr.type = "http" ∧ jr.url = "")
       ∨ (jr.type = "file" ∧ jr.filePath = "")))
    ∧ (jr.type = "http" → jr.url ≠ "" → jr.method = "" →
        jr.Validate = Except.ok { jr with method := "GET" }) := by
  constructor
  · by_cases h0 : jr.type = ""
    · simp [JobRequest.Validate, h0, isValidationError]
    · by_cases h1 : jr.type = "command"
      · by_cases hc : jr.command = "" <;>
          simp [JobRequest.Validate, h0, h1, hc, isValidationError]
      · by_cases h2 : jr.type = "script"
        · by_cases hc : jr.script = "" <;>
            simp [JobRequest.Validate, h0, h1, h2, hc, isValidationError]
        · by_cases h3 : jr.type = "http"
          · by_cases hu : jr.url = ""
            · simp [JobRequest.Validate, h0, h1, h2, h3, hu, isValidationError]
            · by_cases hm : jr.method = "" <;>
                simp [JobRequest.Validate, h0, h1, h2, h3, hu, hm, isValidationError]
          · by_cases h4 : jr.type = "file"
            · by_cases hf : jr.filePath = "" <;>
                simp [JobRequest.Validate, h0, h1, h2, h3, h4, hf, isValidationError]
            · simp [JobRequest.Validate, h0, h1, h2, h3, h4, isValidationError]
  · intro h3 hu hm
    have h0 : ¬ jr.type = "" := by simp [h3]
    have h1 : ¬ jr.type = "command" := by simp [h3]
    have h2 : ¬ jr.type = "script" := by simp [h3]
    simp [JobRequest.Validate, h0, h1, h2, h3, hu, hm]

/-- C4: `ToJob` propagates the exact `Validate` error; with a non-empty
malformed `Timeout` it fails with a validation error; on success the job
carries the freshly generated non-empty ID, `Status=pending`,
`CreatedAt=now`, every payload field copied from the (validated) request,
`Timeout` the parsed duration (or 5 minutes when the request's `Timeout`
is empty), and `Priority` the request's except that 0 becomes 1. -/
theorem c4_toJob (jr : JobRequest) (ts : Int) (hexSuffix : String) (now : Nat)
    (parseDuration : String → Option Int) :
    (∀ e, jr.Validate = Except.error e →
        jr.ToJob ts hexSuffix now parseDuration = Except.error e)
    ∧ (∀ jr2, jr.Validate = Except.ok jr2 →
        (jr2.timeout ≠ "" → parseDuration jr2.timeout = none →
            ∃ e, jr.ToJob ts hexSuffix now parseDuration = Except.error e
              ∧ isValidationError e = true)
        ∧ ((jr2.timeout = "" ∨ parseDuration jr2.timeout ≠ none) →
            ∃ jb, jr.ToJob ts hexSuffix now parseDuration = Except.ok jb)
        ∧ (∀ jb, jr.ToJob ts hexSuffix now parseDuration = Except.ok jb →
            jb.id = GenerateJobID ts hexSuffix ∧ jb.id ≠ ""
            ∧ jb.status = "pending" ∧ jb.createdAt = now
            ∧ jb.type = jr.type ∧ jb.command = jr.command
            ∧ jb.script = jr.script ∧ jb.url = jr.url
            ∧ jb.filePath = jr.filePath ∧ jb.tags = jr.tags
            ∧ jb.environment = jr.environment ∧ jb.retries = jr.retries
            ∧ jb.method = jr2.method
            ∧ jb.priority = (if jr.priority = 0 then 1 else jr.priority)
            ∧ (jr2.timeout = "" → jb.timeout = fiveMinutes)
            ∧ (jr2.timeout ≠ "" →
                ∀ d, parseDuration jr2.timeout = some d → jb.timeout = d))) := by
  constructor
  · intro e he
    simp [JobRequest.ToJob, he]
  · intro jr2 hok
    obtain ⟨hty, hcmd, hscr, hurl, hfp, htm, hret, hpri, htags, henv, hmeth⟩ :=
      validate_ok_fields jr jr2 hok
    refine ⟨?_, ?_, ?_⟩
    · intro ht hp
      refine ⟨GoError.validation ("invalid timeout format: " ++ jr2.timeout), ?_, rfl⟩
      simp [JobRequest.ToJob, hok, ht, hp]
    · intro hc
      by_cases ht : jr2.timeout = ""
      · simp [JobRequest.ToJob, hok, ht]
      · have hp : parseDuration jr2.timeout ≠ none := by
          rcases hc with h | h
          · exact absurd h ht
          · exact h
        cases hpd : parseDuration jr2.timeout with
        | none => exact absurd hpd hp
        | some d => simp [JobRequest.ToJob, hok, ht, hpd]
    · intro jb hjb
      clear htm
      by_cases ht : jr2.timeout = ""
      · simp only [JobRequest.ToJob, hok] at hjb
        rw [ht] at hjb
        simp only [ne_eq, not_true_eq_false, if_false, ite_false, if_neg,
          Except.ok.injEq] at hjb
        subst hjb
        refine ⟨?_, ?_, ?_, ?_, ?_, ?_, ?_, ?_, ?_, ?_, ?_, ?_, ?_, ?_, ?_, ?_⟩ <;>
          split_ifs <;>
            simp_all [generateJobID_ne_empty]
      · simp only [JobRequest.ToJob, hok] at hjb
        cases hpd : parseDuration jr2.timeout with
        | none =>
          rw [if_pos ht, hpd] at hjb
          exact absurd hjb (by simp)
        | some d =>
          rw [if_pos ht, hpd] at hjb
          simp only [Except.ok.injEq] at hjb
          subst hjb
          refine ⟨?_, ?_, ?_, ?_, ?_, ?_, ?_, ?_, ?_, ?_, ?_, ?_, ?_, ?_, ?_, ?_⟩ <;>
            split_ifs <;>
              simp_all [generateJobID_ne_empty]

/-! ## The multi-type executor (JobExecutor.Execute) -/

/-- `JobResult` of pkg/job/types.go. -/
structure JobResult where
  jobID : String
  status : String
  output : String
  error : String
  exitCode : Int
  startedAt : Nat
  completedAt : Nat
  duration : Nat
deriving DecidableEq, Repr

/-- What one execution strategy (`executeCommand`, `executeScript`,
`executeHTTP`, `executeFile`) reports back: output, exit code, and an
optional error message. -/
structure StratOutcome where
  output : String
  exitCode : Int
  err : Option String
deriving DecidableEq, Repr

/-- `JobExecutor` of the worker package (its working directory plays no
role at this level: the strategies that use it are the `strat` parameter
of `Execute`). -/
structure JobExecutor where
  workingDir : String
deriving DecidableEq, Repr

/-- `JobExecutor.Execute`: the type switch dispatches to one of the four
strategies (modelled by `strat`, applied at the job's type); the `default`
arm is a hard error with no result. A strategy error is mapped to a failed
result with the error's message and a nonzero exit code; otherwise the
result is completed with the strategy's exit code. Wall-clock readings are
the explicit `startTime`/`endTime`; the timeout-derived cancellation scope
has no sequential content and is not modelled. -/
def JobExecutor.Execute (_e : JobExecutor) (j : Job)
    (strat : String → StratOutcome) (startTime endTime : Nat) :
    Except GoError JobResult :=
  if j.type = "command" ∨ j.type = "script" ∨ j.type = "http" ∨ j.type = "file" then
    let r := strat j.type
    let status := if r.err.isSome then "failed" else "completed"
    let errorMessage := match r.err with | some m => m | none => ""
    let exitCode :=
      match r.err with
      | some _ => if r.exitCode = 0 then 1 else r.exitCode
      | none => r.exitCode
    Except.ok
      { jobID := j.id, status := status, output := r.output,
        error := errorMessage, exitCode := exitCode, startedAt := startTime,
        completedAt := endTime, duration := endTime - startTime }
  else
    Except.error (GoError.generic ("unsupported job type: " ++ j.type))

/-- C5: `Execute` returns a result and no error exactly for the four
supported job types; on a supported type, a strategy with no error yields
`Status=completed` with the strategy's exit code, and a strategy error
yields `Status=failed`, the error's message, and a nonzero exit code (the
strategy's, or 1 when the strategy reported 0 alongside the error); the
only hard failure (error, no result) is an unsupported job type. -/
theorem c5_execute_mapping (e : JobExecutor) (j : Job)
    (strat : String → StratOutcome) (startTime endTime : Nat) :
    ((j.type = "command" ∨ j.type = "script" ∨ j.type = "http" ∨ j.type = "file") →
        ∃ r, e.Execute j strat startTime endTime = Except.ok r
          ∧ r.jobID = j.id
          ∧ ((strat j.type).err = none →
              r.status = "completed" ∧ r.error = ""
              ∧ r.exitCode = (strat j.type).exitCode)
          ∧ (∀ m, (strat j.type).err = some m →
              r.status = "failed" ∧ r.error = m ∧ r.exitCode ≠ 0
              ∧ r.exitCode =
                  (if (strat j.type).exitCode = 0 then 1 else (strat j.type).exitCode))
          ∧ r.output = (strat j.type).output)
    ∧ (¬ (j.type = "command" ∨ j.type = "script" ∨ j.type = "http" ∨ j.type = "file") →
        e.Execute j strat startTime endTime =
          Except.error (GoError.generic ("unsupported job type: " ++ j.type))) := by
  constructor
  · intro hsupp
    refine ⟨{ jobID := j.id,
              status := if (strat j.type).err.isSome then "failed" else "completed",
              output := (strat j.type).output,
              error := match (strat j.type).err with | some m => m | none => "",
              exitCode := match (strat j.type).err with
                          | some _ => if (strat j.type).exitCode = 0 then 1
                                      else (strat j.type).exitCode
                          | none => (strat j.type).exitCode,
              startedAt := startTime, completedAt := endTime,
              duration := endTime - startTime }, ?_, rfl, ?_, ?_, rfl⟩
    · simp only [JobExecutor.Execute, if_pos hsupp]
    · intro hne
      refine ⟨?_, ?_, ?_⟩ <;> simp [hne]
    · intro m hm
      refine ⟨?_, ?_, ?_, ?_⟩
      · simp [hm]
      · simp [hm]
      · simp only [hm]
        split_ifs with h0
        · exact one_ne_zero
        · exact h0
      · simp only [hm]
  · intro hunsupp
    simp only [JobExecutor.Execute, if_neg hunsupp]

/-- C5 witness: a concrete command job whose strategy reports an error
together with exit code 0 is mapped to a failed result with exit code 1;
an unsupported type is a hard error. -/
theorem c5_execute_witness :
    (∃ r, JobExecutor.Execute ⟨"/tmp"⟩ baseJob
        (fun _ => { output := "boom", exitCode := 0, err := some "exec failed" }) 3 7 =
          Except.ok r ∧ r.status = "failed" ∧ r.exitCode = 1)
    ∧ JobExecutor.Execute ⟨"/tmp"⟩ { baseJob with type := "database" }
        (fun _ => { output := "", exitCode := 0, err := none }) 3 7 =
        Except.error (GoError.generic "unsupported job type: database") := by
  constructor
  · obtain ⟨r, hok, _, _, hsome, _⟩ :=
      (c5_execute_mapping ⟨"/tmp"⟩ baseJob
        (fun _ => { output := "boom", exitCode := 0, err := some "exec failed" }) 3 7).1
        (Or.inl rfl)
    obtain ⟨hst, _, _, hec⟩ := hsome "exec failed" rfl
    exact ⟨r, hok, hst, by rw [hec]; rfl⟩
  · exact (c5_execute_mapping ⟨"/tmp"⟩ { baseJob with type := "database" }
      (fun _ => { output := "", exitCode := 0, err := none }) 3 7).2 (by decide)

/-! ## The worker capacity supervisor (internal/worker/worker.go) -/

/-- `Worker` of internal/worker/worker.go: the sequentially relevant state
(id and MaxConcurrentJobs are folded in from the WorkerConfig; the mutexes
and heartbeat timestamp carry no sequential content). -/
structure Worker where
  id : String
  maxConcurrentJobs : Int
  currentJobs : List (String × Job)
  isRunning : Bool
  isHealthy : Bool
deriving DecidableEq, Repr

/-- `Worker.IsHealthy()`: health flag AND running flag. -/
def Worker.IsHealthy (w : Worker) : Bool :=
  w.isHealthy && w.isRunning

/-- `Worker.GetCapacity()`. -/
def Worker.GetCapacity (w : Worker) : Int :=
  w.maxConcurrentJobs

/-- `Worker.GetCurrentLoad()`: the size of the in-flight map. -/
def Worker.GetCurrentLoad (w : Worker) : Int :=
  w.currentJobs.length

/-- `Worker.CanAcceptJob()`. -/
def Worker.CanAcceptJob (w : Worker) : Bool :=
  w.IsHealthy && decide (w.GetCurrentLoad < w.GetCapacity)

/-- Go map assignment `w.currentJobs[j.ID] = j`. -/
def mapInsert (m : List (String × Job)) (k : String) (v : Job) :
    List (String × Job) :=
  if m.any (fun p => p.1 = k) then
    m.map (fun p => if p.1 = k then (k, v) else p)
  else m ++ [(k, v)]

/-- Go `delete(w.currentJobs, k)`. -/
def mapErase (m : List (String × Job)) (k : String) : List (String × Job) :=
  m.filter (fun p => p.1 ≠ k)

/-- `Worker.ExecuteJob` of internal/worker/worker.go. Returns what Go
returns — the result/error pair — together with the worker state and the
job value (the Go method mutates both through pointers) after the call.
`exec` models `w.executor.Execute`; the deferred removal from
`currentJobs` runs on every path that registered the job. -/
def Worker.ExecuteJob (w : Worker) (j : Job) (now : Nat)
    (exec : Job → Option JobResult × Option GoError) :
    (Option JobResult × Option GoError) × Worker × Job :=
  if w.CanAcceptJob = false then
    ((none, some (GoError.generic
        ("worker " ++ w.id ++ " cannot accept job: at capacity or unhealthy"))),
      w, j)
  else
    let w1 : Worker := { w with currentJobs := mapInsert w.currentJobs j.id j }
    let j1 : Job := { j with workerId := w.id }
    let u := j1.UpdateStatus "running" now
    match u.1 with
    | some e =>
      ((none, some (GoError.generic ("failed to update job status: " ++ e.msg))),
        { w1 with currentJobs := mapErase w1.currentJobs j.id }, u.2)
    | none =>
      (exec u.2, { w1 with currentJobs := mapErase w1.currentJobs j.id }, u.2)

theorem mapErase_map_key (m : List (String × Job)) (k : String) (v : Job) :
    mapErase (m.map (fun p => if p.1 = k then (k, v) else p)) k = mapErase m k := by
  induction m with
  | nil => rfl
  | cons p rest ih =>
    simp only [mapErase] at ih
    by_cases hp : p.1 = k <;>
      simp_all [mapErase, List.filter_cons]

theorem mapErase_mapInsert (m : List (String × Job)) (k : String) (v : Job) :
    mapErase (mapInsert m k v) k = mapErase m k := by
  unfold mapInsert
  split
  · exact mapErase_map_key m k v
  · simp [mapErase, List.filter_append]

theorem mapErase_of_not_mem (m : List (String × Job)) (k : String)
    (h : k ∉ m.map Prod.fst) : mapErase m k = m := by
  unfold mapErase
  rw [List.filter_eq_self]
  intro p hp
  have hne : p.1 ≠ k := by
    intro hk
    apply h
    rw [← hk]
    exact List.mem_map_of_mem Prod.fst hp
  simp [hne]

/-- C7: `CanAcceptJob()` is exactly `IsHealthy() && load < capacity` with
`IsHealthy()` the conjunction of the health and running flags; when it is
false, `ExecuteJob` returns an error, no result, and neither the worker
state (so no registration) nor the job is touched; when the job is
accepted (its id not already in flight — the hypothesis), the in-flight
map is back to its prior value after every exit path, transition failure,
executor error and success alike. -/
theorem c7_worker_capacity (w : Worker) (j : Job) (now : Nat)
    (exec : Job → Option JobResult × Option GoError)
    (hfresh : j.id ∉ w.currentJobs.map Prod.fst) :
    (w.CanAcceptJob = (w.IsHealthy && decide (w.GetCurrentLoad < w.GetCapacity))
      ∧ w.IsHealthy = (w.isHealthy && w.isRunning))
    ∧ (w.CanAcceptJob = false →
        (w.ExecuteJob j now exec).1.2.isSome = true
        ∧ (w.ExecuteJob j now exec).1.1 = none
        ∧ (w.ExecuteJob j now exec).2.1 = w
        ∧ (w.ExecuteJob j now exec).2.2 = j)
    ∧ (w.CanAcceptJob = true →
        (w.ExecuteJob j now exec).2.1.currentJobs = w.currentJobs) := by
  refine ⟨⟨rfl, rfl⟩, ?_, ?_⟩
  · intro h
    simp [Worker.ExecuteJob, h]
  · intro h
    have hne : (w.CanAcceptJob = false) = False := by simp [h]
    cases hu : ({ j with workerId := w.id } : Job).UpdateStatus "running" now with
    | mk o j2 =>
      cases o <;>
        simp [Worker.ExecuteJob, hne, hu, mapErase_mapInsert,
          mapErase_of_not_mem _ _ hfresh]

/-- C7 witness: a healthy running worker with capacity 2 and nothing in
flight accepts; after `ExecuteJob` the in-flight map is empty again. -/
theorem c7_worker_capacity_witness :
    Worker.CanAcceptJob ⟨"w1", 2, [], true, true⟩ = true
    ∧ ((⟨"w1", 2, [], true, true⟩ : Worker).ExecuteJob baseJob 5
        (fun _ => (none, none))).2.1.currentJobs = [] := by
  have h := c7_worker_capacity ⟨"w1", 2, [], true, true⟩ baseJob 5
    (fun _ => (none, none)) (by simp)
  exact ⟨by decide, h.2.2 (by decide)⟩

/-- C10: when the worker accepts a job whose current status does not admit
the transition to running, `ExecuteJob` returns an error and no result,
the executor is never consulted (the outcome is identical for every
executor), and the job handed back already has its WorkerID overwritten
with this worker's id while its status is unchanged. -/
theorem c10_workerId_mutated_on_rejected_transition (w : Worker) (j : Job)
    (now : Nat) (exec exec2 : Job → Option JobResult × Option GoError)
    (hacc : w.CanAcceptJob = true)
    (htrans : Job.CanTransitionTo { j with workerId := w.id } "running" = false) :
    (w.ExecuteJob j now exec).1.2.isSome = true
    ∧ (w.ExecuteJob j now exec).1.1 = none
    ∧ (w.ExecuteJob j now exec).2.2 = { j with workerId := w.id }
    ∧ (w.ExecuteJob j now exec).2.2.status = j.status
    ∧ w.ExecuteJob j now exec = w.ExecuteJob j now exec2 := by
  have hu := updateStatus_rejected { j with workerId := w.id } "running" now htrans
  have hne : (w.CanAcceptJob = false) = False := by simp [hacc]
  refine ⟨?_, ?_, ?_, ?_, ?_⟩ <;>
    simp [Worker.ExecuteJob, hne, hu]

/-- C10 witness: a worker accepts a job already in status completed; the
returned job carries the worker's id, and an error is reported. -/
theorem c10_workerId_witness :
    ((⟨"w1", 2, [], true, true⟩ : Worker).ExecuteJob
        { baseJob with status := "completed" } 5 (fun _ => (none, none))).2.2 =
      { { baseJob with status := "completed" } with workerId := "w1" }
    ∧ ((⟨"w1", 2, [], true, true⟩ : Worker).ExecuteJob
        { baseJob with status := "completed" } 5 (fun _ => (none, none))).1.2.isSome = true := by
  have h := c10_workerId_mutated_on_rejected_transition ⟨"w1", 2, [], true, true⟩
    { baseJob with status := "completed" } 5 (fun _ => (none, none))
    (fun _ => (none, none)) (by decide) (by decide)
  exact ⟨h.2.2.1, h.1⟩

/-! ## Shallow copy of reference fields (C2) -/

/-- The value part of a stored job with the `Tags` slice made explicit as
a reference: a Go slice value is a header pointing at a shared backing
array, and the struct copy `jobCopy := *j` of memory_store.go duplicates
the header, not the array (`Environment`, a Go map, aliases the same way;
one reference field suffices to exhibit the effect; the remaining fields
are genuinely copied by value and are elided). -/
structure JobV where
  id : String
  status : String
  tagsRef : Nat
deriving DecidableEq, Repr

/-- The heap of slice backing arrays; `tagsRef` indexes into it. -/
structure TagHeap where
  arrays : List (List String)
deriving DecidableEq, Repr

/-- Reading `j.Tags` through the slice header. -/
def TagHeap.read (h : TagHeap) (r : Nat) : List String :=
  h.arrays.getD r []

/-- An in-place element mutation of `j.Tags` performed by a caller: it
rewrites the backing array, not the header. -/
def TagHeap.write (h : TagHeap) (r : Nat) (v : List String) : TagHeap :=
  ⟨h.arrays.set r v⟩

/-- `MemoryStore` over the reference-carrying job values. -/
structure MemoryStoreH where
  jobs : List (String × JobV)
deriving DecidableEq, Repr

/-- `MemoryStore.Create` over `JobV`: `jobCopy := *j` keeps `tagsRef`. -/
def MemoryStoreH.Create (s : MemoryStoreH) (j : JobV) :
    Except GoError MemoryStoreH :=
  if (s.jobs.lookup j.id).isSome then
    Except.error (GoError.validation ("job already exists: " ++ j.id))
  else
    Except.ok ⟨s.jobs ++ [(j.id, j)]⟩

/-- `MemoryStore.Get` over `JobV`: the returned copy keeps `tagsRef`. -/
def MemoryStoreH.Get (s : MemoryStoreH) (jobID : String) :
    Except GoError JobV :=
  match s.jobs.lookup jobID with
  | none => Except.error (GoError.jobNotFound jobID)
  | some j => Except.ok j

/-- C2 (the code violates the claim): a job whose Tags backing array holds
["a"] is stored by Create; the caller then mutates its own copy's tags in
place (Tags[0] = "b"); a subsequent Get returns a job whose Tags read
["b"], not the ["a"] the job had when it was stored — the struct copy
shares the slice backing array, so the store's state is reachable through
a caller-held reference. -/
theorem c2_shallow_copy_leak :
    ∃ s, MemoryStoreH.Create ⟨[]⟩ ⟨"j1", "pending", 0⟩ = Except.ok s
    ∧ TagHeap.read ⟨[["a"]]⟩ 0 = ["a"]
    ∧ TagHeap.write ⟨[["a"]]⟩ 0 ["b"] = ⟨[["b"]]⟩
    ∧ ∃ got, MemoryStoreH.Get s "j1" = Except.ok got
        ∧ TagHeap.read (TagHeap.write ⟨[["a"]]⟩ 0 ["b"]) got.tagsRef = ["b"] :=
  ⟨⟨[("j1", ⟨"j1", "pending", 0⟩)]⟩, rfl, rfl, rfl,
    ⟨"j1", "pending", 0⟩, rfl, rfl⟩
